import Mathlib

/-!
Shallow embedding of `triangulizor.py` (the triangular-pixel image filter).

Colors are RGB triples of natural numbers.  Python 2 integer division on
non-negative operands coincides with `Nat` division, `xrange(a, b)` with the
list `[a, a+1, ..., b-1]` (empty when `b ≤ a`), and `xrange(a, b, s)` for a
positive step `s` with the list `a, a+s, ...` of length `⌈(b-a)/s⌉`.
Fallible Python operations (a failing `assert`, `ZeroDivisionError`,
`reduce()` of an empty sequence) are embedded as `Option`/`Except` failures.
-/

namespace Triangulizor

/-- An RGB color: `(r, g, b)` with non-negative integer channels. -/
abbrev Color := Nat × Nat × Nat

/-- Absolute difference of two naturals, embedding Python `abs(r1 - r2)`
on non-negative integers. -/
def adiff (a b : Nat) : Nat := if a ≤ b then b - a else a - b

/-- `color_reducer((r1,g1,b1), (r2,g2,b2)) = (r1+r2, g1+g2, b1+b2)`. -/
def color_reducer (c1 c2 : Color) : Color :=
  (c1.1 + c2.1, c1.2.1 + c2.2.1, c1.2.2 + c2.2.2)

/-- `get_average_color(colors)`: `reduce(color_reducer, colors)` followed by
floor division of each channel by `len(colors)`.  Python's `reduce` with no
initial value raises `TypeError` on an empty sequence, embedded as `none`. -/
def get_average_color : List Color → Option Color
  | [] => none
  | c :: rest =>
    let s := rest.foldl color_reducer c
    let total := (c :: rest).length
    some (s.1 / total, s.2.1 / total, s.2.2 / total)

/-- `get_color_dist`: component-wise absolute difference of two colors. -/
def get_color_dist (a b : Color) : Color :=
  (adiff a.1 b.1, adiff a.2.1 b.2.1, adiff a.2.2 b.2.2)

/-- Python `xrange(a, b)` (step 1): the naturals from `a` up to `b - 1`. -/
def xrange (a b : Nat) : List Nat := (List.range (b - a)).map (fun i => a + i)

/-- Python `xrange(a, b, s)` for a positive step `s`. -/
def xrangeStep (a b s : Nat) : List Nat :=
  (List.range ((b - a + (s - 1)) / s)).map (fun i => a + i * s)

/-- The pixel coordinates appended to the `north` list in `triangle_colors`:
for `y` in `xrange(tile_y, tile_y + quad_size)`, `x_off = y - tile_y`, and
`x` in `xrange(tile_x + x_off, tile_x + tile_size - x_off)`. -/
def north_region (tx ty t : Nat) : List (Nat × Nat) :=
  (xrange ty (ty + t / 2)).flatMap (fun y =>
    let x_off := y - ty
    (xrange (tx + x_off) (tx + t - x_off)).map (fun x => (x, y)))

/-- The `south` list: for `y` in `xrange(tile_y + quad_size, tile_y + tile_size)`,
`x_off = tile_y + tile_size - y`. -/
def south_region (tx ty t : Nat) : List (Nat × Nat) :=
  (xrange (ty + t / 2) (ty + t)).flatMap (fun y =>
    let x_off := ty + t - y
    (xrange (tx + x_off) (tx + t - x_off)).map (fun x => (x, y)))

/-- The `east` list: for `x` in `xrange(tile_x, tile_x + quad_size)`,
`y_off = x - tile_x`. -/
def east_region (tx ty t : Nat) : List (Nat × Nat) :=
  (xrange tx (tx + t / 2)).flatMap (fun x =>
    let y_off := x - tx
    (xrange (ty + y_off) (ty + t - y_off)).map (fun y => (x, y)))

/-- The `west` list: for `x` in `xrange(tile_x + quad_size, tile_x + tile_size)`,
`y_off = tile_x + tile_size - x` (the source really uses the x-origin here). -/
def west_region (tx ty t : Nat) : List (Nat × Nat) :=
  (xrange (tx + t / 2) (tx + t)).flatMap (fun x =>
    let y_off := tx + t - x
    (xrange (ty + y_off) (ty + t - y_off)).map (fun y => (x, y)))

/-- `triangle_colors`: sample the four regions of the tile at `(tx, ty)` and
average each, returning `(north, east, south, west)`; `none` when any region
is empty (Python raises `TypeError` inside `get_average_color`). -/
def triangle_colors (tx ty t : Nat) (pix : Nat × Nat → Color) :
    Option (Color × Color × Color × Color) := do
  let n ← get_average_color ((north_region tx ty t).map pix)
  let e ← get_average_color ((east_region tx ty t).map pix)
  let s ← get_average_color ((south_region tx ty t).map pix)
  let w ← get_average_color ((west_region tx ty t).map pix)
  pure (n, e, s, w)

/-- The diagonal split of a tile: `right` runs top-left to bottom-right,
`left` runs bottom-left to top-right. -/
inductive Split
  | left
  | right
deriving DecidableEq, Repr

/-- Python's lexicographic `<` on 3-tuples of integers, restricted to
non-negative channels. -/
def lexLt (a b : Color) : Prop :=
  a.1 < b.1 ∨ (a.1 = b.1 ∧ (a.2.1 < b.2.1 ∨ (a.2.1 = b.2.1 ∧ a.2.2 < b.2.2)))

instance decLexLt (a b : Color) : Decidable (lexLt a b) := by
  unfold lexLt
  exact inferInstance

/-- Non-strict lexicographic order on colors (Python tuple `<=`). -/
def lexLe (a b : Color) : Prop :=
  a.1 < b.1 ∨ (a.1 = b.1 ∧ (a.2.1 < b.2.1 ∨ (a.2.1 = b.2.1 ∧ a.2.2 ≤ b.2.2)))

/-- `x` is a lexicographically minimal element among the four colors. -/
def isMin4 (x a b c d : Color) : Prop :=
  lexLe x a ∧ lexLe x b ∧ lexLe x c ∧ lexLe x d

/-- Binary minimum under `lexLt`, keeping the left argument on ties (the
value of `sorted(l)[0]` is the fold of this minimum over the list). -/
def colorMin (a b : Color) : Color := if lexLt b a then b else a

/-- The split decision of `process_tile`: `closest = sorted([d_ne, d_nw,
d_se, d_sw])[0]`; `'right'` when `closest in (d_ne, d_sw)`, else `'left'`
when `closest in (d_nw, d_se)`; otherwise the Python variable `split` is
never assigned (`none` — unreachable, proved below). -/
def code_split (n e s w : Color) : Option Split :=
  let d_ne := get_color_dist n e
  let d_nw := get_color_dist n w
  let d_se := get_color_dist s e
  let d_sw := get_color_dist s w
  let closest := colorMin (colorMin (colorMin d_ne d_nw) d_se) d_sw
  if closest = d_ne ∨ closest = d_sw then some Split.right
  else if closest = d_nw ∨ closest = d_se then some Split.left
  else none

/-- Modelled from the spec (not the source), for comparison only: the split
selector as the spec describes it — among the candidates in evaluation
order `(N,E), (N,W), (S,E), (S,W)`, the FIRST one attaining the
lexicographic minimum wins, and `(N,E)`/`(S,W)` map to `right`,
`(N,W)`/`(S,E)` to `left`. -/
def spec_split (n e s w : Color) : Split :=
  let d_ne := get_color_dist n e
  let d_nw := get_color_dist n w
  let d_se := get_color_dist s e
  let d_sw := get_color_dist s w
  let m := colorMin (colorMin (colorMin d_ne d_nw) d_se) d_sw
  if d_ne = m then Split.right
  else if d_nw = m then Split.left
  else if d_se = m then Split.left
  else Split.right

/-- `process_tile` up to (and excluding) the drawing call: sample the four
region colors, pick the split, and average the two half-colors.  Returns
the data handed to `draw_triangles`; `none` embeds an uncaught Python
exception (empty region or unassigned `split`). -/
def process_tile (tx ty t : Nat) (pix : Nat × Nat → Color) :
    Option (Split × Color × Color) := do
  let (n, e, s, w) ← triangle_colors tx ty t pix
  let sp ← code_split n e s w
  match sp with
  | Split.right => do
    let top ← get_average_color [n, e]
    let bottom ← get_average_color [s, w]
    pure (Split.right, top, bottom)
  | Split.left => do
    let top ← get_average_color [n, w]
    let bottom ← get_average_color [s, e]
    pure (Split.left, top, bottom)

/-- `prep_image` on the dimension level: `x_tiles = w / t` (Python raises
`ZeroDivisionError` when `t = 0`, embedded as `none`), the new size is
`(x_tiles * t, y_tiles * t)`; the boolean records whether the image was
cropped (`false` = returned unchanged). -/
def prep_image (w h t : Nat) : Option (Nat × Nat × Bool) :=
  if t = 0 then none
  else
    let new_w := w / t * t
    let new_h := h / t * t
    if new_w = w ∧ new_h = h then some (w, h, false)
    else some (new_w, new_h, true)

/-- `iter_tiles`: tile origins in row-major order, `y` outer, `x` inner,
both stepping by `tile_size`. -/
def iter_tiles (w h t : Nat) : List (Nat × Nat) :=
  (xrangeStep 0 h t).flatMap (fun y =>
    (xrangeStep 0 w t).map (fun x => (x, y)))

/-- The errors `triangulize` can raise before returning. -/
inductive TriErr
  | assertionError -- the `assert tile_size % 2 == 0` fails (configuration)
  | zeroDivision   -- `ZeroDivisionError` from `w / tile_size` in `prep_image`
  | emptyReduce    -- `TypeError` from `reduce()` of an empty region
deriving DecidableEq, Repr

/-- `triangulize(image, tile_size)` on the observable level: validate
evenness, crop via `prep_image`, process every tile of `iter_tiles` in
order.  On success it returns the cropped dimensions together with the
per-tile render data (split and the two fill colors) in processing order;
an empty list means no tile was processed and no pixel written. -/
def triangulize (w h t : Nat) (pix : Nat × Nat → Color) :
    Except TriErr (Nat × Nat × List (Split × Color × Color)) :=
  if t % 2 = 0 then
    match prep_image w h t with
    | none => Except.error TriErr.zeroDivision
    | some (nw, nh, _) =>
      match (iter_tiles nw nh t).mapM (fun p => process_tile p.1 p.2 t pix) with
      | none => Except.error TriErr.emptyReduce
      | some outs => Except.ok (nw, nh, outs)
  else Except.error TriErr.assertionError

/-! ### Basic facts about `xrange` and list sums -/

lemma mem_xrange {a b x : Nat} : x ∈ xrange a b ↔ a ≤ x ∧ x < b := by
  simp only [xrange, List.mem_map, List.mem_range]
  constructor
  · rintro ⟨i, hi, rfl⟩
    omega
  · rintro ⟨h1, h2⟩
    exact ⟨x - a, by omega, by omega⟩

lemma length_xrange (a b : Nat) : (xrange a b).length = b - a := by
  simp [xrange]

lemma sum_map_range (f : Nat → Nat) (n : Nat) :
    ((List.range n).map f).sum = ∑ i ∈ Finset.range n, f i := by
  induction n with
  | zero => simp
  | succ n ih =>
    rw [List.range_succ, List.map_append, List.sum_append, Finset.sum_range_succ, ih]
    simp

lemma sum_map_xrange (f : Nat → Nat) (a b : Nat) :
    ((xrange a b).map f).sum = ∑ i ∈ Finset.range (b - a), f (a + i) := by
  rw [xrange, List.map_map, sum_map_range]
  rfl

/-! ### Membership in the four regions -/

lemma mem_north {tx ty t a b : Nat} :
    (a, b) ∈ north_region tx ty t ↔
      ty ≤ b ∧ b < ty + t / 2 ∧ tx + (b - ty) ≤ a ∧ a < tx + t - (b - ty) := by
  simp only [north_region, List.mem_flatMap, List.mem_map, mem_xrange]
  constructor
  · rintro ⟨y, hy, x, hx, hpair⟩
    injection hpair with h1 h2
    subst h1; subst h2
    omega
  · rintro ⟨h1, h2, h3, h4⟩
    exact ⟨b, by omega, a, by omega, rfl⟩

lemma mem_south {tx ty t a b : Nat} :
    (a, b) ∈ south_region tx ty t ↔
      ty + t / 2 ≤ b ∧ b < ty + t ∧
        tx + (ty + t - b) ≤ a ∧ a < tx + t - (ty + t - b) := by
  simp only [south_region, List.mem_flatMap, List.mem_map, mem_xrange]
  constructor
  · rintro ⟨y, hy, x, hx, hpair⟩
    injection hpair with h1 h2
    subst h1; subst h2
    omega
  · rintro ⟨h1, h2, h3, h4⟩
    exact ⟨b, by omega, a, by omega, rfl⟩

lemma mem_east {tx ty t a b : Nat} :
    (a, b) ∈ east_region tx ty t ↔
      tx ≤ a ∧ a < tx + t / 2 ∧ ty + (a - tx) ≤ b ∧ b < ty + t - (a - tx) := by
  simp only [east_region, List.mem_flatMap, List.mem_map, mem_xrange]
  constructor
  · rintro ⟨x, hx, y, hy, hpair⟩
    injection hpair with h1 h2
    subst h1; subst h2
    omega
  · rintro ⟨h1, h2, h3, h4⟩
    exact ⟨a, by omega, b, by omega, rfl⟩

lemma mem_west {tx ty t a b : Nat} :
    (a, b) ∈ west_region tx ty t ↔
      tx + t / 2 ≤ a ∧ a < tx + t ∧
        ty + (tx + t - a) ≤ b ∧ b < ty + t - (tx + t - a) := by
  simp only [west_region, List.mem_flatMap, List.mem_map, mem_xrange]
  constructor
  · rintro ⟨x, hx, y, hy, hpair⟩
    injection hpair with h1 h2
    subst h1; subst h2
    omega
  · rintro ⟨h1, h2, h3, h4⟩
    exact ⟨a, by omega, b, by omega, rfl⟩

/-! ### Region sizes -/

lemma length_north (tx ty t : Nat) :
    (north_region tx ty t).length = ∑ dy ∈ Finset.range (t / 2), (t - 2 * dy) := by
  rw [north_region, List.length_flatMap, sum_map_xrange]
  have hq : ty + t / 2 - ty = t / 2 := by omega
  rw [hq]
  refine Finset.sum_congr rfl (fun dy _ => ?_)
  simp only [Function.comp, List.length_map, length_xrange]
  omega

lemma length_east (tx ty t : Nat) :
    (east_region tx ty t).length = ∑ dx ∈ Finset.range (t / 2), (t - 2 * dx) := by
  rw [east_region, List.length_flatMap, sum_map_xrange]
  have hq : tx + t / 2 - tx = t / 2 := by omega
  rw [hq]
  refine Finset.sum_congr rfl (fun dx _ => ?_)
  simp only [Function.comp, List.length_map, length_xrange]
  omega

lemma length_south (tx ty t : Nat) (he : t % 2 = 0) :
    (south_region tx ty t).length = ∑ j ∈ Finset.range (t / 2), 2 * j := by
  rw [south_region, List.length_flatMap, sum_map_xrange]
  have hq : ty + t - (ty + t / 2) = t / 2 := by omega
  rw [hq]
  refine Finset.sum_congr rfl (fun j hj => ?_)
  have hj2 := Finset.mem_range.mp hj
  simp only [Function.comp, List.length_map, length_xrange]
  omega

lemma length_west (tx ty t : Nat) (he : t % 2 = 0) :
    (west_region tx ty t).length = ∑ j ∈ Finset.range (t / 2), 2 * j := by
  rw [west_region, List.length_flatMap, sum_map_xrange]
  have hq : tx + t - (tx + t / 2) = t / 2 := by omega
  rw [hq]
  refine Finset.sum_congr rfl (fun j hj => ?_)
  have hj2 := Finset.mem_range.mp hj
  simp only [Function.comp, List.length_map, length_xrange]
  omega

/-- The size bookkeeping behind the spec's counting identity: the four
region sizes always add up to `tile_size²` for even `tile_size` (even
though, as shown elsewhere, the regions overlap and leave gaps). -/
lemma regions_length_sum (tx ty t : Nat) (he : t % 2 = 0) :
    (north_region tx ty t).length + (east_region tx ty t).length +
      (south_region tx ty t).length + (west_region tx ty t).length = t * t := by
  obtain ⟨q, rfl⟩ : ∃ q, t = 2 * q := ⟨t / 2, by omega⟩
  rw [length_north, length_east, length_south _ _ _ he, length_west _ _ _ he]
  have hq : 2 * q / 2 = q := by omega
  rw [hq, ← Finset.sum_add_distrib, ← Finset.sum_add_distrib, ← Finset.sum_add_distrib]
  have hpt : ∀ dy ∈ Finset.range q,
      (2 * q - 2 * dy + (2 * q - 2 * dy) + 2 * dy + 2 * dy) = 4 * q := by
    intro dy hdy
    have := Finset.mem_range.mp hdy
    omega
  rw [Finset.sum_congr rfl hpt, Finset.sum_const, Finset.card_range, smul_eq_mul]
  ring

/-! ### `get_average_color` and `triangle_colors` totality -/

lemma get_average_color_eq_none {l : List Color} :
    get_average_color l = none ↔ l = [] := by
  cases l with
  | nil => simp [get_average_color]
  | cons c rest => simp [get_average_color]

lemma get_average_color_isSome {l : List Color} (h : l ≠ []) :
    ∃ c, get_average_color l = some c := by
  cases l with
  | nil => exact absurd rfl h
  | cons c rest => exact ⟨_, rfl⟩

/-! ### The lexicographic order and the four-way minimum -/

lemma color_ext {a b : Color} (h1 : a.1 = b.1) (h2 : a.2.1 = b.2.1)
    (h3 : a.2.2 = b.2.2) : a = b := by
  obtain ⟨x, y, z⟩ := a
  obtain ⟨u, v, w⟩ := b
  simp_all

lemma lexLe_refl (a : Color) : lexLe a a := by
  unfold lexLe
  omega

lemma lexLe_antisymm {a b : Color} (h1 : lexLe a b) (h2 : lexLe b a) : a = b := by
  unfold lexLe at h1 h2
  exact color_ext (by omega) (by omega) (by omega)

lemma lexLe_trans {a b c : Color} (h1 : lexLe a b) (h2 : lexLe b c) : lexLe a c := by
  unfold lexLe at *
  omega

lemma lexLe_of_not_lt {a b : Color} (h : ¬ lexLt b a) : lexLe a b := by
  unfold lexLt at h
  unfold lexLe
  omega

lemma lexLe_of_lt {a b : Color} (h : lexLt a b) : lexLe a b := by
  unfold lexLt at h
  unfold lexLe
  omega

lemma colorMin_eq_or (a b : Color) : colorMin a b = a ∨ colorMin a b = b := by
  unfold colorMin
  split
  · exact Or.inr rfl
  · exact Or.inl rfl

lemma colorMin_le_left (a b : Color) : lexLe (colorMin a b) a := by
  unfold colorMin
  split
  · exact lexLe_of_lt (by assumption)
  · exact lexLe_refl a

lemma colorMin_le_right (a b : Color) : lexLe (colorMin a b) b := by
  unfold colorMin
  split
  · exact lexLe_refl b
  · exact lexLe_of_not_lt (by assumption)

lemma min4_mem (a b c d : Color) :
    colorMin (colorMin (colorMin a b) c) d = a ∨
      colorMin (colorMin (colorMin a b) c) d = b ∨
      colorMin (colorMin (colorMin a b) c) d = c ∨
      colorMin (colorMin (colorMin a b) c) d = d := by
  rcases colorMin_eq_or (colorMin (colorMin a b) c) d with h3 | h3
  · rw [h3]
    rcases colorMin_eq_or (colorMin a b) c with h2 | h2
    · rw [h2]
      rcases colorMin_eq_or a b with h1 | h1
      · exact Or.inl h1
      · exact Or.inr (Or.inl h1)
    · exact Or.inr (Or.inr (Or.inl h2))
  · exact Or.inr (Or.inr (Or.inr h3))

lemma min4_le (a b c d : Color) :
    isMin4 (colorMin (colorMin (colorMin a b) c) d) a b c d := by
  have h3l := colorMin_le_left (colorMin (colorMin a b) c) d
  have h3r := colorMin_le_right (colorMin (colorMin a b) c) d
  have h2l := colorMin_le_left (colorMin a b) c
  have h2r := colorMin_le_right (colorMin a b) c
  have h1l := colorMin_le_left a b
  have h1r := colorMin_le_right a b
  exact ⟨lexLe_trans h3l (lexLe_trans h2l h1l),
    lexLe_trans h3l (lexLe_trans h2l h1r), lexLe_trans h3l h2r, h3r⟩

/-- The fold of `colorMin` equals `x` precisely when `x` is a lexicographic
minimal element of the four, provided `x` is one of them. -/
lemma min4_eq_iff {a b c d x : Color} (hx : x = a ∨ x = b ∨ x = c ∨ x = d) :
    colorMin (colorMin (colorMin a b) c) d = x ↔ isMin4 x a b c d := by
  constructor
  · rintro rfl
    exact min4_le a b c d
  · rintro ⟨ha, hb, hc, hd⟩
    obtain ⟨hma, hmb, hmc, hmd⟩ := min4_le a b c d
    have hmx : lexLe (colorMin (colorMin (colorMin a b) c) d) x := by
      rcases hx with rfl | rfl | rfl | rfl
      · exact hma
      · exact hmb
      · exact hmc
      · exact hmd
    have hxm : lexLe x (colorMin (colorMin (colorMin a b) c) d) := by
      rcases min4_mem a b c d with hm | hm | hm | hm <;> rw [hm]
      · exact ha
      · exact hb
      · exact hc
      · exact hd
    exact lexLe_antisymm hmx hxm

/-! ### Pipeline helpers: `prep_image`, `iter_tiles`, `triangulize` -/

lemma div_mul_eq_self_iff (w t : Nat) : w / t * t = w ↔ t ∣ w :=
  ⟨fun hh => hh ▸ dvd_mul_left t (w / t), Nat.div_mul_cancel⟩

lemma mul_div_max {w t : Nat} (ht : 0 < t) :
    ∀ w2, t ∣ w2 → w2 ≤ w → w2 ≤ w / t * t := by
  rintro w2 ⟨k, rfl⟩ hle
  have hle2 : k * t ≤ w := by rw [Nat.mul_comm]; exact hle
  have hk : k ≤ w / t := (Nat.le_div_iff_mul_le ht).mpr hle2
  calc t * k = k * t := Nat.mul_comm t k
    _ ≤ w / t * t := Nat.mul_le_mul_right t hk

lemma prep_image_eq (w h t : Nat) (ht : 0 < t) :
    ∃ c, prep_image w h t = some (w / t * t, h / t * t, c) := by
  unfold prep_image
  rw [if_neg (by omega : ¬ t = 0)]
  by_cases hc : w / t * t = w ∧ h / t * t = h
  · rw [if_pos hc]
    exact ⟨false, by rw [hc.1, hc.2]⟩
  · rw [if_neg hc]
    exact ⟨true, rfl⟩

lemma xrangeStep_zero_zero {t : Nat} (ht : 0 < t) : xrangeStep 0 0 t = [] := by
  have h : (t - 1) / t = 0 := Nat.div_eq_of_lt (by omega)
  simp [xrangeStep, h]

lemma iter_tiles_zero_w {h t : Nat} (ht : 0 < t) : iter_tiles 0 h t = [] := by
  unfold iter_tiles
  rw [xrangeStep_zero_zero ht]
  simp

lemma iter_tiles_zero_h {w t : Nat} (ht : 0 < t) : iter_tiles w 0 t = [] := by
  unfold iter_tiles
  rw [xrangeStep_zero_zero ht]
  simp

/-! ### Claim theorems -/

/-- C1 (counterexample): at `tile_size = 2` — an even tile size `≥ 2` — the
South and West regions sampled by `triangle_colors` are empty, and
`triangle_colors` fails (Python applies `reduce` to an empty sequence), so
the claim that all four regions are non-empty for every even
`tile_size ≥ 2` is false. -/
theorem C1_counterexample :
    (2 : Nat) % 2 = 0 ∧ 2 ≤ (2 : Nat) ∧
      south_region 0 0 2 = [] ∧ west_region 0 0 2 = [] ∧
      triangle_colors 0 0 2 (fun _ => (255, 0, 0)) = none := by
  decide

/-- C1 (amended): for every even `tile_size ≥ 4` and every tile origin, the
four sampled regions are non-empty and `triangle_colors` succeeds, so the
average is never applied to an empty sequence; the bound `≥ 2` of the
claim must be raised to `≥ 4`. -/
theorem C1_regions_nonempty (tx ty t : Nat) (pix : Nat × Nat → Color)
    (h4 : 4 ≤ t) (he : t % 2 = 0) :
    north_region tx ty t ≠ [] ∧ east_region tx ty t ≠ [] ∧
      south_region tx ty t ≠ [] ∧ west_region tx ty t ≠ [] ∧
      (triangle_colors tx ty t pix).isSome = true := by
  have hn : (tx, ty) ∈ north_region tx ty t := mem_north.mpr (by omega)
  have hea : (tx, ty) ∈ east_region tx ty t := mem_east.mpr (by omega)
  have hs : (tx + 1, ty + t - 1) ∈ south_region tx ty t := mem_south.mpr (by omega)
  have hw : (tx + t - 1, ty + 1) ∈ west_region tx ty t := mem_west.mpr (by omega)
  have hn2 : (north_region tx ty t).map pix ≠ [] := by
    rw [Ne, List.map_eq_nil_iff]; exact List.ne_nil_of_mem hn
  have he2 : (east_region tx ty t).map pix ≠ [] := by
    rw [Ne, List.map_eq_nil_iff]; exact List.ne_nil_of_mem hea
  have hs2 : (south_region tx ty t).map pix ≠ [] := by
    rw [Ne, List.map_eq_nil_iff]; exact List.ne_nil_of_mem hs
  have hw2 : (west_region tx ty t).map pix ≠ [] := by
    rw [Ne, List.map_eq_nil_iff]; exact List.ne_nil_of_mem hw
  obtain ⟨cn, hcn⟩ := get_average_color_isSome hn2
  obtain ⟨ce, hce⟩ := get_average_color_isSome he2
  obtain ⟨cs, hcs⟩ := get_average_color_isSome hs2
  obtain ⟨cw, hcw⟩ := get_average_color_isSome hw2
  refine ⟨List.ne_nil_of_mem hn, List.ne_nil_of_mem hea,
    List.ne_nil_of_mem hs, List.ne_nil_of_mem hw, ?_⟩
  simp [triangle_colors, hcn, hce, hcs, hcw]

/-- C1 (witness): the amended theorem evaluated at tile origin `(5, 7)` and
`tile_size = 4`. -/
theorem C1_witness :
    ((4 : Nat) ≤ 4 ∧ (4 : Nat) % 2 = 0) ∧
      (north_region 5 7 4 ≠ [] ∧ east_region 5 7 4 ≠ [] ∧
        south_region 5 7 4 ≠ [] ∧ west_region 5 7 4 ≠ [] ∧
        (triangle_colors 5 7 4 (fun _ => (1, 2, 3))).isSome = true) :=
  ⟨by decide, C1_regions_nonempty 5 7 4 (fun _ => (1, 2, 3)) (by decide) (by decide)⟩

/-- C2 (counterexample): at `tile_size = 2`, tile origin `(0, 0)`, the pixel
`(0, 0)` lies in both the North and the East region (the regions are not
pairwise disjoint) and the tile pixel `(1, 1)` lies in none of the four
(the union is not the whole tile), so the claimed exact partition fails. -/
theorem C2_counterexample :
    (2 : Nat) % 2 = 0 ∧ 2 ≤ (2 : Nat) ∧
      ((0, 0) ∈ north_region 0 0 2 ∧ (0, 0) ∈ east_region 0 0 2) ∧
      ((1, 1) ∉ north_region 0 0 2 ∧ (1, 1) ∉ east_region 0 0 2 ∧
        (1, 1) ∉ south_region 0 0 2 ∧ (1, 1) ∉ west_region 0 0 2) := by
  decide

/-- C2 (amended): for every even `tile_size ≥ 2` and every tile origin, the
four region sizes still sum to `tile_size²`, but the regions do NOT
partition the tile: the tile's top-left pixel belongs to both North and
East, and the tile's bottom-right pixel belongs to no region. -/
theorem C2_sum_not_partition (tx ty t : Nat) (h2 : 2 ≤ t) (he : t % 2 = 0) :
    ((north_region tx ty t).length + (east_region tx ty t).length +
        (south_region tx ty t).length + (west_region tx ty t).length = t * t) ∧
      ((tx, ty) ∈ north_region tx ty t ∧ (tx, ty) ∈ east_region tx ty t) ∧
      ((tx + t - 1, ty + t - 1) ∉ north_region tx ty t ∧
        (tx + t - 1, ty + t - 1) ∉ east_region tx ty t ∧
        (tx + t - 1, ty + t - 1) ∉ south_region tx ty t ∧
        (tx + t - 1, ty + t - 1) ∉ west_region tx ty t) := by
  refine ⟨regions_length_sum tx ty t he,
    ⟨mem_north.mpr (by omega), mem_east.mpr (by omega)⟩, ?_, ?_, ?_, ?_⟩
  · intro hmem
    have := mem_north.mp hmem
    omega
  · intro hmem
    have := mem_east.mp hmem
    omega
  · intro hmem
    have := mem_south.mp hmem
    omega
  · intro hmem
    have := mem_west.mp hmem
    omega

/-- C2 (witness): the amended theorem evaluated at tile origin `(1, 2)` and
`tile_size = 4`. -/
theorem C2_witness :
    ((2 : Nat) ≤ 4 ∧ (4 : Nat) % 2 = 0) ∧
      (((north_region 1 2 4).length + (east_region 1 2 4).length +
          (south_region 1 2 4).length + (west_region 1 2 4).length = 4 * 4) ∧
        ((1, 2) ∈ north_region 1 2 4 ∧ (1, 2) ∈ east_region 1 2 4) ∧
        ((1 + 4 - 1, 2 + 4 - 1) ∉ north_region 1 2 4 ∧
          (1 + 4 - 1, 2 + 4 - 1) ∉ east_region 1 2 4 ∧
          (1 + 4 - 1, 2 + 4 - 1) ∉ south_region 1 2 4 ∧
          (1 + 4 - 1, 2 + 4 - 1) ∉ west_region 1 2 4)) :=
  ⟨by decide, C2_sum_not_partition 1 2 4 (by decide) (by decide)⟩

/-- C3 (counterexample): `tile_size = 0` is not positive, yet `triangulize`
does not fail with the invalid-argument (assertion) error: the evenness
assert passes and the call dies later with a `ZeroDivisionError` inside
`prep_image`, so the claim that every non-positive `tile_size` is rejected
immediately with a configuration error is false. -/
theorem C3_counterexample :
    triangulize 4 4 0 (fun _ => (0, 0, 0)) = Except.error TriErr.zeroDivision ∧
      TriErr.zeroDivision ≠ TriErr.assertionError :=
  ⟨rfl, by decide⟩

/-- C3 (amended): `triangulize` validates only that `tile_size` is even:
every odd `tile_size` fails immediately with the assertion error and no
pixel is read (the result does not depend on the pixel buffer), while
`tile_size = 0` passes the evenness check and fails only inside the
cropping step with a division-by-zero. -/
theorem C3_evenness_only_validation :
    (∀ w h t pix, t % 2 ≠ 0 →
      triangulize w h t pix = Except.error TriErr.assertionError) ∧
    (∀ w h pix, triangulize w h 0 pix = Except.error TriErr.zeroDivision) := by
  constructor
  · intro w h t pix ht
    simp [triangulize, ht]
  · intro w h pix
    simp [triangulize, prep_image]

/-- C3 (witness): the amended theorem evaluated at `tile_size = 3` and
`tile_size = 0` on a 6×6 buffer. -/
theorem C3_witness :
    ((3 : Nat) % 2 ≠ 0 ∧
      triangulize 6 6 3 (fun _ => (9, 9, 9)) = Except.error TriErr.assertionError) ∧
      triangulize 6 6 0 (fun _ => (9, 9, 9)) = Except.error TriErr.zeroDivision :=
  ⟨⟨by decide, C3_evenness_only_validation.1 6 6 3 (fun _ => (9, 9, 9)) (by decide)⟩,
    C3_evenness_only_validation.2 6 6 (fun _ => (9, 9, 9))⟩

/-- C4 (counterexample): at region colors `N = (0,0,0)`, `E = (2,0,0)`,
`S = (0,0,0)`, `W = (1,0,0)` the distances are `d(N,E) = (2,0,0)`,
`d(N,W) = (1,0,0)`, `d(S,E) = (2,0,0)`, `d(S,W) = (1,0,0)`; the minimum
`(1,0,0)` is first attained in evaluation order by `(N,W)`, so the claimed
tie-break predicts split Left, but the code (which tests
`closest in (d_ne, d_sw)` first) picks Right. -/
theorem C4_counterexample :
    spec_split (0, 0, 0) (2, 0, 0) (0, 0, 0) (1, 0, 0) = Split.left ∧
      code_split (0, 0, 0) (2, 0, 0) (0, 0, 0) (1, 0, 0) = some Split.right := by
  decide

/-- C4 (amended): the selector always chooses a split, and the split is
Right precisely when `d(N,E)` or `d(S,W)` is a lexicographically minimal
element among the four candidates, Left otherwise; when the minimal value
is attained by both a Right-pair and a Left-pair candidate, Right wins
(the Right pairs are tested first), not the first candidate in evaluation
order. -/
theorem C4_split_characterization (n e s w : Color) :
    (code_split n e s w = some Split.right ∨
        code_split n e s w = some Split.left) ∧
      (code_split n e s w = some Split.right ↔
        isMin4 (get_color_dist n e) (get_color_dist n e) (get_color_dist n w)
            (get_color_dist s e) (get_color_dist s w) ∨
          isMin4 (get_color_dist s w) (get_color_dist n e) (get_color_dist n w)
            (get_color_dist s e) (get_color_dist s w)) ∧
      (code_split n e s w = some Split.left ↔
        ¬(isMin4 (get_color_dist n e) (get_color_dist n e) (get_color_dist n w)
            (get_color_dist s e) (get_color_dist s w) ∨
          isMin4 (get_color_dist s w) (get_color_dist n e) (get_color_dist n w)
            (get_color_dist s e) (get_color_dist s w))) := by
  simp only [code_split]
  generalize get_color_dist n e = A
  generalize get_color_dist n w = B
  generalize get_color_dist s e = C
  generalize get_color_dist s w = D
  by_cases h1 : colorMin (colorMin (colorMin A B) C) D = A ∨
      colorMin (colorMin (colorMin A B) C) D = D
  · rw [if_pos h1]
    have hr : isMin4 A A B C D ∨ isMin4 D A B C D := by
      rcases h1 with h | h
      · exact Or.inl ((min4_eq_iff (Or.inl rfl)).mp h)
      · exact Or.inr ((min4_eq_iff (Or.inr (Or.inr (Or.inr rfl)))).mp h)
    simp [hr]
  · have h2 : colorMin (colorMin (colorMin A B) C) D = B ∨
        colorMin (colorMin (colorMin A B) C) D = C := by
      rcases min4_mem A B C D with hm | hm | hm | hm
      · exact absurd (Or.inl hm) h1
      · exact Or.inl hm
      · exact Or.inr hm
      · exact absurd (Or.inr hm) h1
    rw [if_neg h1, if_pos h2]
    have hnr : ¬(isMin4 A A B C D ∨ isMin4 D A B C D) := by
      rintro (h | h)
      · exact h1 (Or.inl ((min4_eq_iff (Or.inl rfl)).mpr h))
      · exact h1 (Or.inr ((min4_eq_iff (Or.inr (Or.inr (Or.inr rfl)))).mpr h))
    simp [hnr]

/-- C5: for every even `tile_size ≥ 2` and every tile origin, the sizes of
the four sampled regions satisfy `|N| + |E| + |S| + |W| = tile_size²`. -/
theorem C5_region_sizes_sum (tx ty t : Nat) (_h2 : 2 ≤ t) (he : t % 2 = 0) :
    (north_region tx ty t).length + (east_region tx ty t).length +
      (south_region tx ty t).length + (west_region tx ty t).length = t * t :=
  regions_length_sum tx ty t he

/-- C5 (witness): the theorem evaluated at tile origin `(0, 0)` and
`tile_size = 2`. -/
theorem C5_witness :
    ((2 : Nat) ≤ 2 ∧ (2 : Nat) % 2 = 0) ∧
      (north_region 0 0 2).length + (east_region 0 0 2).length +
        (south_region 0 0 2).length + (west_region 0 0 2).length = 2 * 2 :=
  ⟨by decide, C5_region_sizes_sum 0 0 2 (by decide) (by decide)⟩

/-- C6: for every valid (positive, even) `tile_size`, `prep_image` yields
the largest origin-anchored sub-rectangle with both dimensions exact
multiples of `tile_size`: the new dimensions are multiples of `t`, at most
the originals, maximal among such, and the image is passed through
uncropped exactly when both dimensions already are multiples. -/
theorem C6_prep_image_crop (w h t : Nat) (ht : 0 < t) (he : t % 2 = 0) :
    ∃ nw nh c, prep_image w h t = some (nw, nh, c) ∧
      t ∣ nw ∧ t ∣ nh ∧ nw ≤ w ∧ nh ≤ h ∧
      (∀ w2, t ∣ w2 → w2 ≤ w → w2 ≤ nw) ∧
      (∀ h2, t ∣ h2 → h2 ≤ h → h2 ≤ nh) ∧
      (c = false ↔ (t ∣ w ∧ t ∣ h)) := by
  unfold prep_image
  rw [if_neg (by omega : ¬ t = 0)]
  by_cases hc : w / t * t = w ∧ h / t * t = h
  · rw [if_pos hc]
    refine ⟨w, h, false, rfl, ?_, ?_, le_refl w, le_refl h,
      fun _ _ hle => hle, fun _ _ hle => hle, ?_⟩
    · exact (div_mul_eq_self_iff w t).mp hc.1
    · exact (div_mul_eq_self_iff h t).mp hc.2
    · simp only [true_iff]
      exact ⟨(div_mul_eq_self_iff w t).mp hc.1, (div_mul_eq_self_iff h t).mp hc.2⟩
  · rw [if_neg hc]
    refine ⟨w / t * t, h / t * t, true, rfl,
      dvd_mul_left t (w / t), dvd_mul_left t (h / t),
      Nat.div_mul_le_self w t, Nat.div_mul_le_self h t,
      mul_div_max ht, mul_div_max ht, ?_⟩
    simp only [Bool.true_eq_false, false_iff]
    rintro ⟨hdw, hdh⟩
    exact hc ⟨Nat.div_mul_cancel hdw, Nat.div_mul_cancel hdh⟩

/-- C6 (witness): the theorem evaluated at a 45×40 image with
`tile_size = 20`; the width 45 is cropped to 40, so the concrete scenario
in the spec is also checked here. -/
theorem C6_witness :
    ((0 : Nat) < 20 ∧ (20 : Nat) % 2 = 0 ∧
        prep_image 45 40 20 = some (40, 40, true)) ∧
      (∃ nw nh c, prep_image 45 40 20 = some (nw, nh, c) ∧
        20 ∣ nw ∧ 20 ∣ nh ∧ nw ≤ 45 ∧ nh ≤ 40 ∧
        (∀ w2, 20 ∣ w2 → w2 ≤ 45 → w2 ≤ nw) ∧
        (∀ h2, 20 ∣ h2 → h2 ≤ 40 → h2 ≤ nh) ∧
        (c = false ↔ (20 ∣ 45 ∧ 20 ∣ 40))) :=
  ⟨⟨by decide, by decide, by decide⟩, C6_prep_image_crop 45 40 20 (by decide) (by decide)⟩

/-- C7: for `tile_size = 3` (odd), `triangulize` fails with the
configuration (assertion) error for every image size and every pixel
buffer — the result does not depend on the pixel buffer, so no pixel is
accessed before the rejection. -/
theorem C7_odd_tile_rejected (w h : Nat) (pix : Nat × Nat → Color) :
    triangulize w h 3 pix = Except.error TriErr.assertionError := by
  simp [triangulize]

/-- C8: `get_average_color` of a one-element list returns that color
unchanged, and of two equal colors returns that color. -/
theorem C8_average_identity (c : Color) :
    get_average_color [c] = some c ∧ get_average_color [c, c] = some c := by
  obtain ⟨r, g, b⟩ := c
  constructor
  · simp [get_average_color]
  · simp only [get_average_color, color_reducer, List.foldl, List.length,
      Option.some.injEq]
    refine color_ext ?_ ?_ ?_ <;> simp <;> omega

/-- C9: for `tile_size = 0` the evenness check passes (`0 % 2 = 0`) and
`triangulize` fails with the division-by-zero error of the cropping step —
not the configuration error — for every image size and pixel buffer, so
the failure happens before any tile is processed or pixel written. -/
theorem C9_zero_tile_division_error (w h : Nat) (pix : Nat × Nat → Color) :
    (0 : Nat) % 2 = 0 ∧
      triangulize w h 0 pix = Except.error TriErr.zeroDivision ∧
      TriErr.zeroDivision ≠ TriErr.assertionError := by
  refine ⟨rfl, ?_, by decide⟩
  simp [triangulize, prep_image]

/-- C10: for a valid (positive, even) `tile_size` and an image with a
dimension strictly smaller than it, `triangulize` crops that dimension to
zero, iterates over zero tiles and returns the cropped (possibly empty)
image without any error and with an empty list of processed tiles. -/
theorem C10_small_image_no_tiles (w h t : Nat) (pix : Nat × Nat → Color)
    (ht : 0 < t) (he : t % 2 = 0) (hsmall : w < t ∨ h < t) :
    triangulize w h t pix = Except.ok (w / t * t, h / t * t, []) ∧
      (w < t → w / t * t = 0) ∧ (h < t → h / t * t = 0) := by
  have htiles : iter_tiles (w / t * t) (h / t * t) t = [] := by
    rcases hsmall with hlt | hlt
    · have hz : w / t = 0 := Nat.div_eq_of_lt hlt
      rw [hz, Nat.zero_mul]
      exact iter_tiles_zero_w ht
    · have hz : h / t = 0 := Nat.div_eq_of_lt hlt
      rw [hz, Nat.zero_mul]
      exact iter_tiles_zero_h ht
  obtain ⟨c, hp⟩ := prep_image_eq w h t ht
  refine ⟨?_, fun hlt => by rw [Nat.div_eq_of_lt hlt, Nat.zero_mul],
    fun hlt => by rw [Nat.div_eq_of_lt hlt, Nat.zero_mul]⟩
  simp [triangulize, he, hp, htiles, List.mapM_nil]
  rfl

/-- C10 (witness): the theorem evaluated at a 1×4 image with
`tile_size = 2`: the width is cropped to zero and no tile is processed. -/
theorem C10_witness :
    ((0 : Nat) < 2 ∧ (2 : Nat) % 2 = 0 ∧ ((1 : Nat) < 2 ∨ (4 : Nat) < 2)) ∧
      (triangulize 1 4 2 (fun _ => (1, 2, 3)) =
          Except.ok (1 / 2 * 2, 4 / 2 * 2, []) ∧
        ((1 : Nat) < 2 → 1 / 2 * 2 = 0) ∧ ((4 : Nat) < 2 → 4 / 2 * 2 = 0)) :=
  ⟨⟨by decide, by decide, Or.inl (by decide)⟩,
    C10_small_image_no_tiles 1 4 2 (fun _ => (1, 2, 3)) (by decide) (by decide)
      (Or.inl (by decide))⟩

end Triangulizor
